import Mathlib

/-!
Verification development for the VivoAssist RAG chat assistant.

Shallow embedding of the manual-scope resolution engine of the repository:

* `app/chat/chat_engine.py` — fuzzy manual matcher (`best_manual_match_with_score`),
  scope decision and the terminal chat loop (`run_terminal_chat`);
* `app/utils/manual_registry.py` — `_tokenize`, `build_manual_registry`;
* `app/utils/manual_selector.py` — `select_manual_from_question`;
* `app/utils/models_registry.py` — `_safe_query`, `build_models_cache`.

Python floats are modelled as exact rationals (`ℚ`); the scores involved are
ratios of small integers and fixed decimal weights, and no claim in scope
depends on binary floating-point rounding at a comparison boundary.

`difflib.SequenceMatcher(None, a, b).ratio()` is modelled exactly for the
regime exercised by this repository: no junk predicate, and second string
shorter than 200 characters (so CPython's autojunk heuristic never fires).
Under those conditions the `find_longest_match` dynamic programming scan
already returns a maximal block, and CPython's junk/non-junk extension
loops are no-ops, so they are not reproduced here.
-/

set_option maxRecDepth 40000

namespace Vivo

/-- Maximal runs of characters satisfying `p` (used for `re.split` /
`str.split` style tokenisation).  `acc` is the current run, reversed. -/
def runsAux (p : Char → Bool) : List Char → List Char → List (List Char)
  | [], acc => if acc.isEmpty then [] else [acc.reverse]
  | c :: cs, acc =>
    if p c then runsAux p cs (c :: acc)
    else if acc.isEmpty then runsAux p cs []
    else acc.reverse :: runsAux p cs []

def runs (p : Char → Bool) (l : List Char) : List (List Char) := runsAux p l []

/-- Python `str.split()` (split on whitespace runs, no empty parts). -/
def splitWs (s : String) : List String :=
  (runs (fun c => !c.isWhitespace) s.data).map (fun cs => String.mk cs)

/-- `_normalize` from `app/chat/chat_engine.py`:
`re.sub(r"[^a-z0-9]+", " ", (s or "").lower()).strip()`.
Replacing every run of non-alphanumeric characters by one space and then
stripping is the same as joining the alphanumeric runs with single spaces. -/
def normalize (s : String) : String :=
  String.intercalate " " ((runs Char.isAlphanum s.toLower.data).map (fun cs => String.mk cs))

/-! ### difflib.SequenceMatcher -/

/-- One row of the `find_longest_match` dynamic programme: the run length of
matching characters ending at `(i, j)`, as the partial map `j2len` that
CPython keeps (absent keys read as `0`). -/
def flmNextRow (c : Char) (b : List Char) (blo bhi : Nat) (prev : Nat → Nat) : Nat → Nat :=
  fun j =>
    if blo ≤ j ∧ j < bhi ∧ b.getD j '\x00' = c then
      (if j = blo then 0 else prev (j - 1)) + 1
    else 0

/-- Best-block update for one row `i`: CPython records `(i-k+1, j-k+1, k)`
whenever `k` strictly exceeds the best size so far, scanning `j` upward. -/
def flmBestRow (i blo bhi : Nat) (row : Nat → Nat) (best : Nat × Nat × Nat) :
    Nat × Nat × Nat :=
  (List.range' blo (bhi - blo)).foldl
    (fun bst j =>
      if bst.2.2 < row j then (i + 1 - row j, j + 1 - row j, row j) else bst)
    best

/-- The `find_longest_match` scan over the window `a[alo:ahi]` / `b[blo:bhi]`,
returning `(besti, bestj, bestsize)`. -/
def findLongestMatch (a b : List Char) (alo ahi blo bhi : Nat) : Nat × Nat × Nat :=
  ((List.range' alo (ahi - alo)).foldl
    (fun st i =>
      let row := flmNextRow (a.getD i '\x00') b blo bhi st.1
      (row, flmBestRow i blo bhi row st.2))
    (fun _ => 0, (alo, blo, 0))).2

/-- Total size of the matching blocks (the `matches` count used by
`ratio()`): recursively split at the longest match, as
`get_matching_blocks` does.  `fuel` dominates the recursion depth; the
top-level call passes window width + 1, which is always sufficient. -/
def matchTotal : Nat → List Char → List Char → Nat → Nat → Nat → Nat → Nat
  | 0, _, _, _, _, _, _ => 0
  | fuel + 1, a, b, alo, ahi, blo, bhi =>
    let r := findLongestMatch a b alo ahi blo bhi
    if r.2.2 = 0 then 0
    else
      matchTotal fuel a b alo r.1 blo r.2.1 + r.2.2 +
        matchTotal fuel a b (r.1 + r.2.2) ahi (r.2.1 + r.2.2) bhi

/-- `_similar(a, b) = SequenceMatcher(None, a, b).ratio()`
(`app/chat/chat_engine.py` and `app/utils/manual_selector.py`):
`2*M / (len(a)+len(b))`, and `1.0` when both strings are empty. -/
def similar (x y : String) : ℚ :=
  let a := x.data
  let b := y.data
  if a.length + b.length = 0 then 1
  else (2 * (matchTotal (a.length + 1) a b 0 a.length 0 b.length) : ℚ) / (a.length + b.length)

/-! ### best_manual_match_with_score (app/chat/chat_engine.py) -/

/-- `AUTO_LOCK_THRESHOLD = 0.72`. -/
def AUTO_LOCK_THRESHOLD : ℚ := 18 / 25

/-- `SUGGEST_THRESHOLD = 0.55`. -/
def SUGGEST_THRESHOLD : ℚ := 11 / 20

/-- Python substring test `pat in s` (contiguous substring). -/
def substrIn (pat s : String) : Bool :=
  (List.range (s.data.length + 1)).any
    (fun i => decide ((s.data.drop i).take pat.data.length = pat.data))

/-- The per-candidate score of the loop body of `best_manual_match_with_score`:
`0.55 * s_full + 0.40 * s_tokens_avg + literal_bonus`, where the candidate
token list falls back to all tokens when none has length ≥ 3, and the
literal bonus is 0.08 per query token of length ≥ 6 occurring literally in
the normalized candidate, capped at 0.24.  `qn` and `qToks` are the
normalized query and its token list as prepared by the caller. -/
def candScore (qn : String) (qToks : List String) (m : String) : ℚ :=
  let mn := normalize m
  let sFull := similar qn mn
  let mToks0 := (splitWs mn).filter (fun t => 3 ≤ t.length)
  let mToks := if mToks0.isEmpty then splitWs mn else mToks0
  let perTokenBest := qToks.map (fun qt => mToks.foldl (fun b mt => max b (similar qt mt)) 0)
  let sTokensAvg := perTokenBest.sum / ((perTokenBest.length.max 1 : ℕ) : ℚ)
  let bonusRaw := qToks.foldl
    (fun acc qt => if substrIn qt mn ∧ 6 ≤ qt.length then acc + 2 / 25 else acc) 0
  let bonus := min bonusRaw (6 / 25)
  11 / 20 * sFull + 2 / 5 * sTokensAvg + bonus

/-- The query token list of `best_manual_match_with_score`: tokens of length
≥ 4, falling back to all tokens when none qualifies. -/
def queryToks (qn : String) : List String :=
  let t0 := (splitWs qn).filter (fun t => 4 ≤ t.length)
  if t0.isEmpty then splitWs qn else t0

/-- `best_manual_match_with_score(q, manuals)` from `app/chat/chat_engine.py`:
empty normalized query returns `(None, 0.0)`; otherwise a fold keeping the
strictly best-scoring candidate (first on ties), with only the final best
score clamped to `1.0`. -/
def best_manual_match_with_score (q : String) (manuals : List String) :
    Option String × ℚ :=
  let qn := normalize q
  if qn = "" then (none, 0)
  else
    let qToks := queryToks qn
    let r := manuals.foldl
      (fun st m =>
        let s := candScore qn qToks m
        if st.2 < s then (some m, s) else st)
      ((none : Option String), (0 : ℚ))
    (r.1, min r.2 1)

/-- Running maximum of `f` over a list, seeded with `s0` (specification-side
view of the score folds below). -/
def foldMax {α : Type} (f : α → ℚ) (l : List α) (s0 : ℚ) : ℚ :=
  l.foldl (fun s x => max s (f x)) s0

/-- `Path(file_name).stem`: the file name with its final suffix removed
(a dot at index 0 marks a hidden file, not a suffix).  The corpus is globbed
as `*.pdf`, so every input here has a real `.pdf` suffix. -/
def stemOf (s : String) : String :=
  match ((List.range s.data.length).filter (fun i => s.data.getD i ' ' = '.')).getLast? with
  | some i => if i = 0 then s else String.mk (s.data.take i)
  | none => s

/-- `_title_from_filename` from `app/utils/models_registry.py`: take the stem,
replace `-` and `_` by spaces, collapse whitespace runs, strip. -/
def title_from_filename (file_name : String) : String :=
  String.intercalate " "
    (splitWs (String.mk ((stemOf file_name).data.map
      (fun c => if c = '-' ∨ c = '_' then ' ' else c))))

/-- The scoring rule exactly as the specification sentence states it
(for comparison with the code): the candidate token list is the tokens of
length ≥ 3 with **no fallback**, and **each candidate's score** is clamped
to 1.0 before the comparison. -/
def claimCandScore (qn : String) (qToks : List String) (m : String) : ℚ :=
  let mn := normalize m
  let sFull := similar qn mn
  let mToks := (splitWs mn).filter (fun t => 3 ≤ t.length)
  let perTokenBest := qToks.map (fun qt => mToks.foldl (fun b mt => max b (similar qt mt)) 0)
  let sTokensAvg := perTokenBest.sum / ((perTokenBest.length.max 1 : ℕ) : ℚ)
  let bonusRaw := qToks.foldl
    (fun acc qt => if substrIn qt mn ∧ 6 ≤ qt.length then acc + 2 / 25 else acc) 0
  let bonus := min bonusRaw (6 / 25)
  min (11 / 20 * sFull + 2 / 5 * sTokensAvg + bonus) 1

/-- The matcher exactly as the specification sentence states it: per-candidate
clamped scores, strictly-highest wins with first-on-ties, no match when no
candidate scores above 0. -/
def claimMatch (q : String) (manuals : List String) : Option String × ℚ :=
  let qn := normalize q
  if qn = "" then (none, 0)
  else
    let qToks := queryToks qn
    manuals.foldl
      (fun st m =>
        let s := claimCandScore qn qToks m
        if st.2 < s then (some m, s) else st)
      ((none : Option String), (0 : ℚ))

/-- Specification-style restatement of what the code actually computes:
per-candidate scores are compared **unclamped**, the first candidate
attaining the maximum wins, and only the returned best score is clamped. -/
def specMatch (q : String) (manuals : List String) : Option String × ℚ :=
  let qn := normalize q
  if qn = "" then (none, 0)
  else
    let qToks := queryToks qn
    let M := foldMax (candScore qn qToks) manuals 0
    if 0 < M then
      (manuals.find? (fun m => decide (M ≤ candScore qn qToks m)), min M 1)
    else (none, 0)

/-! ### manual_registry.py -/

/-- `_STOPWORDS` from `app/utils/manual_registry.py`. -/
def STOPWORDS : List String :=
  ["pdf", "manual", "owner", "owners", "guide", "handbook", "user", "users",
   "edition", "ver", "version", "rev"]

/-- `_tokenize` from `app/utils/manual_registry.py`: split the lowered text on
non-alphanumeric boundaries, then drop stopwords, bare 4-digit tokens, and
tokens shorter than 3 characters. -/
def tokenize (text : String) : List String :=
  ((runs Char.isAlphanum text.toLower.data).map (fun cs => String.mk cs)).filter
    (fun p => p ∉ STOPWORDS ∧ ¬ (p.data.all Char.isDigit = true ∧ p.length = 4)
      ∧ 3 ≤ p.length)

/-- `ManualEntry` from `app/utils/manual_registry.py`.  The Python `tokens`
field is a `set`; it is modelled as a deduplicated list (set iteration order
is unspecified in Python and no property in scope depends on it). -/
structure ManualEntry where
  file_name : String
  stem : String
  tokens : List String
deriving DecidableEq, Repr

/-- Python `sorted` on strings (code-point lexicographic). -/
def sortStrings (l : List String) : List String :=
  l.mergeSort (fun a b => decide (a ≤ b))

/-- `build_manual_registry` from `app/utils/manual_registry.py`, as a function
of the globbed `*.pdf` file names (`Path.glob` results are sorted by the
caller `sorted(...)`); the dict keyed by `pdf.name` in insertion order is an
association list. -/
def build_manual_registry (files : List String) : List (String × ManualEntry) :=
  (sortStrings files).map (fun name =>
    (name, { file_name := name, stem := stemOf name,
             tokens := (tokenize (stemOf name)).dedup }))

/-! ### manual_selector.py -/

/-- `_normalize_question`: `re.sub(r"\s+", " ", q.strip().lower())`. -/
def normalize_question (q : String) : String :=
  String.intercalate " " (splitWs q.toLower)

/-- `_question_words`: `re.findall(r"[a-z0-9]+", q.lower())`. -/
def question_words (q : String) : List String :=
  (runs (fun c => ('a' ≤ c ∧ c ≤ 'z') ∨ ('0' ≤ c ∧ c ≤ '9')) q.toLower.data).map
    (fun cs => String.mk cs)

/-- Regex word character (`\w`): `[a-zA-Z0-9_]`. -/
def isWordChar (c : Char) : Bool := c.isAlphanum || c = '_'

/-- `re.search(rf"\b{re.escape(token)}\b", q)`: the token occurs in `q` with
word boundaries on both sides (the tokens fed in are alphanumeric, for which
`\b` is exactly "adjacent character, if any, is not a word character"). -/
def wordMatch (token q : String) : Bool :=
  (List.range (q.data.length + 1)).any (fun i =>
    decide ((q.data.drop i).take token.data.length = token.data) &&
    (decide (i = 0) || !(isWordChar (q.data.getD (i - 1) ' '))) &&
    (decide (q.data.length ≤ i + token.data.length) ||
      !(isWordChar (q.data.getD (i + token.data.length) ' '))))

/-- The per-entry loop body of `select_manual_from_question`: 1.0 per token
matching a whole word of the question, else 0.9 per token of length ≥ 4
fuzzy-matching some question word of length ≥ 4 at similarity ≥ 0.88; also
returns the last matched token, as the Python loop's `matched` variable. -/
def entryScore (q : String) (words : List String) (tokens : List String) :
    ℚ × Option String :=
  tokens.foldl
    (fun st token =>
      if wordMatch token q then (st.1 + 1, some token)
      else if 4 ≤ token.length ∧
          words.any (fun w => decide (4 ≤ w.length) && decide (22 / 25 ≤ similar w token))
        then (st.1 + 9 / 10, some token)
      else st)
    ((0 : ℚ), (none : Option String))

/-- `select_manual_from_question` from `app/utils/manual_selector.py`:
keep the strictly best-scoring entry (first on ties), return
`(None, None)` when the best score is ≤ 0. -/
def select_manual_from_question (question : String)
    (registry : List (String × ManualEntry)) : Option String × Option String :=
  let q := normalize_question question
  let words := question_words q
  let r := registry.foldl
    (fun st entry =>
      let sc := entryScore q words entry.2.tokens
      if st.2 < sc.1 then ((some entry.1, sc.2), sc.1) else st)
    (((none, none) : Option String × Option String), (0 : ℚ))
  if r.2 ≤ 0 then (none, none) else r.1

/-- The selector exactly as the specification sentence states it: same
scoring, but ties on the highest cumulative score broken in favor of the
longest matched token. -/
def claimSelect (question : String) (registry : List (String × ManualEntry)) :
    Option String × Option String :=
  let q := normalize_question question
  let words := question_words q
  let r := registry.foldl
    (fun st entry =>
      let sc := entryScore q words entry.2.tokens
      let tokLen := ((sc.2.map String.length).getD 0 : Nat)
      if st.2.1 < sc.1 ∨ (st.2.1 = sc.1 ∧ st.2.2 < tokLen)
        then ((some entry.1, sc.2), (sc.1, tokLen)) else st)
    (((none, none) : Option String × Option String), ((0 : ℚ), (0 : Nat)))
  if r.2.1 ≤ 0 then (none, none) else r.1

/-- Specification-style restatement of what the selector code actually does:
the first entry attaining the maximal cumulative score wins. -/
def specSelect (question : String) (registry : List (String × ManualEntry)) :
    Option String × Option String :=
  let q := normalize_question question
  let words := question_words q
  let M := foldMax (fun e => (entryScore q words e.2.tokens).1) registry 0
  if 0 < M then
    ((registry.find?
        (fun e => decide (M ≤ (entryScore q words e.2.tokens).1))).map
      (fun e => (some e.1, (entryScore q words e.2.tokens).2))).getD (none, none)
  else (none, none)

/-! ### run_terminal_chat (app/chat/chat_engine.py)

The terminal loop body is modelled as a step function on an explicit state.
The external Condense+Context engine is opaque: `engine.chat(q)` performs
retrieval and answer generation, so its result — the answer text and the
`(file_name, page)` pairs that `_extract_sources` pulls from the response —
is an input of the step (an oracle).  An `Engine` value records what the
code controls about a cached engine: the retriever's manual filter
(`manual_id` passed to `_build_engine`) and the accumulated chat history.
Debug-only prints (`if debug: ...`) and purely decorative characters
(emoji, confidence formatting `{score:.2f}`, blank separator lines) are not
part of the modelled output; no claim depends on them. -/

/-- `NOT_FOUND` from `app/chat/chat_engine.py`. -/
def NOT_FOUND : String := "Not found in the manual."

def PDF_BASE_URL : String := "http://localhost:8000/data/manuals"

/-- Stand-in for the `FRIENDLY_INTRO` banner (display copy, immaterial to
every claim). -/
def FRIENDLY_INTRO : String := "VivoAssist intro banner"

/-- Python `str.strip()`. -/
def strip (s : String) : String := s.trim

/-- Python truthiness of an optional string (`None` and `""` are falsy):
used for `if not sticky_manual` and `if matched`. -/
def isTruthy (o : Option String) : Bool := decide (o.getD "" ≠ "")

/-- `NOT_FOUND.lower() in text.lower()`. -/
def containsCI (pat s : String) : Bool := substrIn pat.toLower s.toLower

/-- `q.split(maxsplit=1)[1]`: everything after the first whitespace run
(the loop has already stripped `q`, so the remainder exists whenever the
branch guard `startswith("use ")`/`startswith("lock ")` held). -/
def splitRest (s : String) : String :=
  String.mk ((s.data.dropWhile (fun c => !c.isWhitespace)).dropWhile Char.isWhitespace)

/-- A cached Condense+Context engine: the retriever filter it was built
with, and its conversational history as `(user message, answer)` pairs. -/
structure Engine where
  manualId : Option String
  history : List (String × String)
deriving DecidableEq, Repr

/-- `_build_engine(index, top_k=..., manual_id=m)`: a fresh engine whose
retriever is filtered to `m` (no filter when `none`) with empty history. -/
def buildEngine (manualId : Option String) : Engine :=
  { manualId := manualId, history := [] }

/-- What the external engine returns for one `engine.chat(q)` call:
`str(resp)` and the `(file_name, page)` pairs of `_extract_sources(resp)`. -/
structure ChatResp where
  text : String
  fragments : List (String × Option String)
deriving DecidableEq, Repr

/-- Mutable state of `run_terminal_chat`: the manual list (sorted
`models_cache` keys), `sticky_manual`, and `engine_cache` (a dict keyed by
optional manual id, in insertion order). -/
structure ChatState where
  manuals : List String
  sticky : Option String
  cache : List (Option String × Engine)
deriving DecidableEq, Repr

def cacheFind (cache : List (Option String × Engine)) (k : Option String) :
    Option Engine :=
  (cache.find? (fun kv => kv.1 == k)).map (fun kv => kv.2)

/-- Python dict assignment `engine_cache[k] = e`: replace in place if the
key exists, else append (dicts preserve insertion order). -/
def cacheSet (cache : List (Option String × Engine)) (k : Option String)
    (e : Engine) : List (Option String × Engine) :=
  if cache.any (fun kv => kv.1 == k) then
    cache.map (fun kv => if kv.1 == k then (k, e) else kv)
  else cache ++ [(k, e)]

/-- The scope decision of lines 309–327 of `chat_engine.py` for one
non-command question: a truthy `sticky_manual` is used as-is (the matcher
is not even consulted); otherwise the matcher's result is adopted for this
turn only when truthy and at/above `AUTO_LOCK_THRESHOLD` (the
suggest-band branch only prints in debug mode and changes nothing). -/
def decideManual (sticky : Option String) (q : String) (manuals : List String) :
    Option String :=
  if isTruthy sticky then sticky
  else
    let r := best_manual_match_with_score q manuals
    if isTruthy r.1 ∧ AUTO_LOCK_THRESHOLD ≤ r.2 then r.1 else sticky

/-- Python `x.isdigit()` (nonempty, all digits). -/
def isDigits (s : String) : Bool := decide (s ≠ "") && s.data.all Char.isDigit

/-- The page sort key of `_print_sources_with_links`:
`int(x) if x.isdigit() else x`.  When one key is an int and the other a
string CPython raises `TypeError`; page labels of one file are digit
strings in this corpus, and this order agrees with CPython whenever CPython
does not raise. -/
def pageLe (a b : String) : Bool :=
  if isDigits a && isDigits b then decide (a.toNat! ≤ b.toNat!) else decide (a ≤ b)

/-- The pages displayed for file `f`: truthy pages of `f`'s fragments,
deduplicated (`set`) and sorted with the digit-aware key. -/
def pagesFor (sources : List (String × Option String)) (f : String) : List String :=
  ((sources.filterMap (fun fp =>
      match fp.2 with
      | some p => if fp.1 = f ∧ p ≠ "" then some p else none
      | none => none)).dedup).mergeSort pageLe

/-- `_print_sources_with_links(sources)`, as the list of displayed lines:
nothing when no fragment has a truthy page, else a `Sources:` header and,
per file in first-occurrence order, the page list line and one link line
per page. -/
def sourceLines (sources : List (String × Option String)) : List String :=
  let files := (sources.filterMap (fun fp =>
    match fp.2 with
    | some p => if p ≠ "" then some fp.1 else none
    | none => none)).dedup
  if files.isEmpty then []
  else
    "Sources:" ::
      files.foldr
        (fun f acc =>
          let pages := pagesFor sources f
          ("- " ++ f ++ " (pages: " ++ String.intercalate ", " pages ++ ")") ::
            pages.map (fun p => "  - " ++ PDF_BASE_URL ++ "/" ++ f ++ "#page=" ++ p)
            ++ acc)
        []

/-- Is the (stripped, lowered) input handled by one of the command branches
before the RAG branch of the loop body? -/
def isCommand (raw : String) : Bool :=
  let ql := (strip raw).toLower
  ql == "exit" || ql == "quit" ||
  ql == "hi" || ql == "hello" || ql == "hey" || ql == "who are you" || ql == "help" ||
  ql.startsWith "list manuals" ||
  ql == "unlock" || ql == "clear lock" ||
  ql.startsWith "use " || ql.startsWith "lock "

/-- One iteration of the `while True` body of `run_terminal_chat`: consumes
the raw input line and (for the RAG branch) the external engine's response,
returns the successor state and the displayed lines. -/
def chatTurn (st : ChatState) (raw : String) (resp : ChatResp) :
    ChatState × List String :=
  let q := strip raw
  let ql := q.toLower
  if ql = "exit" ∨ ql = "quit" then (st, [])
  else if ql = "hi" ∨ ql = "hello" ∨ ql = "hey" ∨ ql = "who are you" ∨ ql = "help" then
    (st, ["Assistant: " ++ FRIENDLY_INTRO])
  else if ql.startsWith "list manuals" then
    (st, "Assistant: Manuals available:" :: st.manuals.map (fun m => "- " ++ m))
  else if ql = "unlock" ∨ ql = "clear lock" then
    ({ st with sticky := none }, ["Assistant: Manual lock cleared."])
  else if ql.startsWith "use " ∨ ql.startsWith "lock " then
    let target := splitRest q
    let r := best_manual_match_with_score target st.manuals
    if isTruthy r.1 ∧ SUGGEST_THRESHOLD ≤ r.2 then
      ({ st with sticky := r.1 }, ["Assistant: Locked to manual: " ++ r.1.getD ""])
    else (st, ["Assistant: Could not match that manual."])
  else
    let active := decideManual st.sticky q st.manuals
    let cache1 :=
      if st.cache.any (fun kv => kv.1 == active) then st.cache
      else st.cache ++ [(active, buildEngine active)]
    let e := (cacheFind cache1 active).getD (buildEngine active)
    let cache2 := cacheSet cache1 active { e with history := e.history ++ [(q, resp.text)] }
    ({ st with cache := cache2 },
      ("Assistant: " ++ resp.text) ::
        (if containsCI NOT_FOUND resp.text
         then ["Assistant: Try asking something that exists in the manual."]
         else sourceLines resp.fragments))

/-! ### models_registry.py (batch cache builder) -/

/-- The retryability test of `_safe_query`: the lowered exception message
contains one of the rate-limit markers. -/
def retryable (msg : String) : Bool :=
  substrIn "429" msg.toLower || substrIn "rate limit" msg.toLower ||
  substrIn "too many requests" msg.toLower || substrIn "throttle" msg.toLower

/-- `_safe_query(qe, prompt, max_retries=8, ...)`: attempt `qe.query` up to
`max_retries` times; a non-retryable error raises from attempt 2 on (the
very first error is always retried); exhausting the loop raises the last
error.  The external call is the oracle `query : attempt ↦ outcome`;
sleeping is invisible to the embedding.  (With `max_retries = 0` CPython
would `raise None`; the builder always passes 8.) -/
def safeQueryGo {α : Type} (query : Nat → Except String α) :
    Nat → Nat → String → Except String α
  | 0, _, last => .error last
  | fuel + 1, attempt, _ =>
    match query attempt with
    | .ok v => .ok v
    | .error e =>
      if ¬ retryable e = true ∧ 2 ≤ attempt then .error e
      else safeQueryGo query fuel (attempt + 1) e

def safe_query {α : Type} (query : Nat → Except String α) (max_retries : Nat) :
    Except String α :=
  safeQueryGo query max_retries 1 ""

/-- What one query-engine call yields: `str(resp)` and the
`(file_name, page)` pairs of `models_registry._extract_sources`. -/
structure QueryResp where
  text : String
  sources : List (String × Option String)
deriving DecidableEq, Repr

/-- `_DENY_KEYWORDS` from `app/utils/models_registry.py`. -/
def DENY_KEYWORDS : List String :=
  ["appendix", "table", "figure", "revision", "rev.", "copyright",
   "all rights reserved", "contents", "index",
   "part number", "p/n", "serial", "firmware", "software version",
   "specification", "specifications", "dimensions",
   "compatible", "compatibility"]

/-- `_is_valid_subject`. -/
def is_valid_subject (name : String) : Bool :=
  let n := (strip name).toLower
  decide (n ≠ "") && !(DENY_KEYWORDS.any (fun bad => substrIn bad n)) &&
  decide (4 ≤ n.length) && !(isDigits n)

/-- `re.split` on the single-character separators `,` `\n` `;` `•`,
keeping empty pieces as `re.split` does. -/
def splitOnPred (p : Char → Bool) : List Char → List (List Char)
  | [] => [[]]
  | c :: cs =>
    match splitOnPred p cs with
    | [] => [[]]
    | h :: t => if p c then [] :: h :: t else (c :: h) :: t

def splitSeps (s : String) : List String :=
  (splitOnPred (fun c => c = ',' ∨ c = '\n' ∨ c = ';' ∨ c = '•') s.data).map
    (fun cs => String.mk cs)

/-- `re.sub(r"^[-•\*]\s*", "", s)`: one leading bullet character and the
whitespace after it are removed. -/
def stripBullet (s : String) : String :=
  match s.data with
  | [] => s
  | c :: rest =>
    if c = '-' ∨ c = '•' ∨ c = '*' then String.mk (rest.dropWhile Char.isWhitespace)
    else s

/-- `re.sub(r"^(model|vehicle|manual|product|system)\s*:\s*", "", s, flags=I)`:
try each label in alternation order; it matches when the label prefix is
followed by optional whitespace, a colon and optional whitespace, and the
whole match is removed. -/
def stripLabelGo (s : String) : List String → String
  | [] => s
  | w :: ws =>
    if s.toLower.startsWith w then
      match (s.data.drop w.length).dropWhile Char.isWhitespace with
      | ':' :: r2 => String.mk (r2.dropWhile Char.isWhitespace)
      | _ => stripLabelGo s ws
    else stripLabelGo s ws

def stripLabel (s : String) : String :=
  stripLabelGo s ["model", "vehicle", "manual", "product", "system"]

/-- `re.sub(r"\s+", " ", s).strip()`. -/
def collapseWs (s : String) : String := String.intercalate " " (splitWs s)

/-- `_parse_subjects(text)` from `app/utils/models_registry.py`. -/
def parse_subjects (text : String) : List String :=
  let t := strip text
  if t = "" ∨ containsCI NOT_FOUND t then []
  else
    (splitSeps t).foldl
      (fun subjects p =>
        let s1 := stripBullet (strip p)
        if s1 = "" then subjects
        else
          let s2 := collapseWs (stripLabel s1)
          if s2 = "" then subjects
          else if is_valid_subject s2 = true ∧ s2 ∉ subjects then subjects ++ [s2]
          else subjects)
      []

/-- One entry of the models cache (`cache[file_name]["models"]` elements). -/
structure ModelInfo where
  name : String
  pages : List String
  inferred : Bool
deriving DecidableEq, Repr

/-- The cache entry built for one manual from the query response:
explicit subjects with their deduplicated, digit-aware-sorted pages of this
file, or the filename-derived inferred entry when no subject parses. -/
def mkCacheEntry (file_name : String) (resp : QueryResp) : List ModelInfo :=
  let names := parse_subjects (strip resp.text)
  if names ≠ [] then
    let pages := ((resp.sources.filterMap (fun fp =>
      match fp.2 with
      | some p => if fp.1 = file_name ∧ p ≠ "" then some p else none
      | none => none)).dedup).mergeSort pageLe
    names.map (fun n => { name := n, pages := pages, inferred := false })
  else
    [{ name := title_from_filename file_name ++ " (inferred from filename)",
       pages := [], inferred := true }]

/-- The manual loop of `build_models_cache`: skip manuals already cached
(resume safety), query with retries, extend the cache after each success
(the cache file is rewritten after each manual, so the returned cache is
exactly what is on disk); an exhausted retry raises out of the function,
aborting the remaining manuals — the second component reports that
propagated error.  `oracle pdf attempt` is the outcome of the external
query for `pdf` on try `attempt`. -/
def buildCacheGo (oracle : String → Nat → Except String QueryResp) :
    List String → List (String × List ModelInfo) →
      List (String × List ModelInfo) × Option String
  | [], cache => (cache, none)
  | pdf :: rest, cache =>
    if cache.any (fun kv => kv.1 == pdf) then buildCacheGo oracle rest cache
    else
      match safe_query (oracle pdf) 8 with
      | .error e => (cache, some e)
      | .ok resp => buildCacheGo oracle rest (cache ++ [(pdf, mkCacheEntry pdf resp)])

/-- `build_models_cache` over the sorted `*.pdf` glob. -/
def build_models_cache (oracle : String → Nat → Except String QueryResp)
    (pdfs : List String) (cache0 : List (String × List ModelInfo)) :
    List (String × List ModelInfo) × Option String :=
  buildCacheGo oracle (sortStrings pdfs) cache0

/-! ### Compound-Query Splitter (spec §4.4)

No implementation of the splitter exists under `src/`; the definitions
below are modelled from the specification's words. -/

/-- Modelled from the spec: the intent words of an inventory-flavored
question ("list/show/what/which/available/all/'do you have'-style"). -/
def INTENT_WORDS : List String := ["list", "show", "what", "which", "available", "all"]

/-- Modelled from the spec: the subject words ("a models/manuals/documents
subject word"). -/
def SUBJECT_WORDS : List String := ["models", "manuals", "documents"]

/-- Occurrence of `pat` immediately followed by a digit (for the
"page N" / "p. N" hard exclusions). -/
def patThenDigit (pat s : String) : Bool :=
  (List.range (s.data.length + 1)).any (fun i =>
    decide ((s.data.drop i).take pat.data.length = pat.data) &&
    (s.data.getD (i + pat.data.length) ' ').isDigit)

/-- Modelled from the spec: page-specific patterns ("page N", "p. N",
"what does", "on page") that must always fall through to content
retrieval. -/
def hasPagePattern (lq : String) : Bool :=
  patThenDigit "page " lq || patThenDigit "p. " lq ||
  substrIn "what does" lq || substrIn "on page" lq

/-- Modelled from the spec: a question is inventory-flavored if it contains
an intent word combined with a subject word (or a tolerated misspelling of
"models", read as whole-string similarity ≥ 0.8), and is hard-excluded on
page-specific patterns. -/
def inventoryFlavored (q : String) : Bool :=
  let lq := (strip q).toLower
  let ws := splitWs lq
  (INTENT_WORDS.any (fun w => ws.contains w) || substrIn "do you have" lq) &&
  (SUBJECT_WORDS.any (fun w => ws.contains w) ||
    ws.any (fun w => decide ((4 : ℚ) / 5 ≤ similar w "models"))) &&
  !(hasPagePattern lq)

/-- First occurrence of the conjunction "and"/"then" as a word: the words
before it and after it. -/
def splitAtConj : List String → Option (List String × List String)
  | [] => none
  | w :: ws =>
    if w.toLower = "and" ∨ w.toLower = "then" then some ([], ws)
    else
      match splitAtConj ws with
      | some (pre, post) => some (w :: pre, post)
      | none => none

/-- Modelled from the spec: `split(question) -> (is_compound,
inventory_part, remainder)`.  An inventory-flavored question splits at the
first "and"/"then"; the text after the conjunction becomes the remainder
only if its trimmed length is at least 5 characters, otherwise the whole
question is pure inventory with no remainder.  Non-inventory questions
pass through unchanged as the remainder (content branch). -/
def splitInventory (q : String) : Bool × String × String :=
  if inventoryFlavored q then
    let ws := splitWs (strip q)
    match splitAtConj ws with
    | some (pre, post) =>
      let rem := strip (String.intercalate " " post)
      if 5 ≤ rem.length then (true, String.intercalate " " pre, rem)
      else (false, String.intercalate " " ws, "")
    | none => (false, String.intercalate " " ws, "")
  else (false, "", strip q)

/-- Invariant of the `find_longest_match` row map after `i` rows have been
processed on identical sequences: values are bounded by the row count and the
column position, and the diagonal entry is exact. -/
def rowOK (i : Nat) (row : Nat → Nat) : Prop :=
  (∀ j, row j ≤ i ∧ row j ≤ j + 1) ∧ (∀ j, i = j + 1 → row j = i)

/-! ### Generic lemmas about the strict-improvement selection fold

Both `best_manual_match_with_score` and `select_manual_from_question` keep a
running best candidate, replacing it only on a strictly greater score, so
both return the **first** candidate attaining the maximal score. -/

theorem foldMax_nil {α : Type} (f : α → ℚ) (s0 : ℚ) : foldMax f [] s0 = s0 := rfl

theorem foldMax_cons {α : Type} (f : α → ℚ) (x : α) (t : List α) (s0 : ℚ) :
    foldMax f (x :: t) s0 = foldMax f t (max s0 (f x)) := rfl

theorem le_foldMax_self {α : Type} (f : α → ℚ) :
    ∀ (l : List α) (s0 : ℚ), s0 ≤ foldMax f l s0 := by
  intro l
  induction l with
  | nil => intro s0; exact le_refl s0
  | cons x t ih =>
    intro s0
    calc s0 ≤ max s0 (f x) := le_max_left _ _
    _ ≤ foldMax f t (max s0 (f x)) := ih _

theorem le_foldMax_of_mem {α : Type} (f : α → ℚ) :
    ∀ (l : List α) (s0 : ℚ) (y : α), y ∈ l → f y ≤ foldMax f l s0 := by
  intro l
  induction l with
  | nil => intro _ y h; cases h
  | cons x t ih =>
    intro s0 y hy
    rcases List.mem_cons.1 hy with h | h
    · subst h
      calc f y ≤ max s0 (f y) := le_max_right _ _
      _ ≤ foldMax f t (max s0 (f y)) := le_foldMax_self f t _
    · exact ih _ y h

/-- When the running maximum strictly exceeds the seed, some list element
attains it, so `find?` for "attains the maximum" succeeds. -/
theorem foldMax_attained {α : Type} (f : α → ℚ) :
    ∀ (l : List α) (s0 : ℚ), s0 < foldMax f l s0 →
      ∃ y, l.find? (fun x => decide (foldMax f l s0 ≤ f x)) = some y := by
  intro l
  induction l with
  | nil => intro s0 h; exact absurd h (lt_irrefl s0)
  | cons x t ih =>
    intro s0 h
    rw [foldMax_cons] at h ⊢
    by_cases hx : foldMax f t (max s0 (f x)) ≤ f x
    · exact ⟨x, List.find?_cons_of_pos _ (by simpa using hx)⟩
    · push_neg at hx
      have hmax : max s0 (f x) < foldMax f t (max s0 (f x)) := max_lt h hx
      obtain ⟨y, hy⟩ := ih (max s0 (f x)) hmax
      exact ⟨y, by rw [List.find?_cons_of_neg _ (by simpa using not_le.2 hx)]; exact hy⟩

/-- The strict-improvement fold equals: first element attaining the running
maximum (when the seed was beaten), else the initial state. -/
theorem pickFold {α β : Type} (f : α → ℚ) (g : α → β) :
    ∀ (l : List α) (b0 : β) (s0 : ℚ),
      l.foldl (fun st x => if st.2 < f x then (g x, f x) else st) (b0, s0)
      = if s0 < foldMax f l s0 then
          (((l.find? (fun x => decide (foldMax f l s0 ≤ f x))).map g).getD b0,
            foldMax f l s0)
        else (b0, s0) := by
  intro l
  induction l with
  | nil => intro b0 s0; simp [foldMax_nil]
  | cons x t ih =>
    intro b0 s0
    rw [List.foldl_cons, foldMax_cons]
    by_cases hx : s0 < f x
    · rw [if_pos hx, ih (g x) (f x)]
      have hmx : max s0 (f x) = f x := max_eq_right hx.le
      rw [hmx]
      have hfold : f x ≤ foldMax f t (f x) := le_foldMax_self f t _
      have hs0M : s0 < foldMax f t (f x) := lt_of_lt_of_le hx hfold
      rw [if_pos hs0M]
      by_cases hxM : f x < foldMax f t (f x)
      · rw [if_pos hxM]
        rw [List.find?_cons_of_neg _ (by simpa using not_le.2 hxM)]
        obtain ⟨y, hy⟩ := foldMax_attained f t (f x) hxM
        rw [hy]
        simp only [Option.map_some', Option.getD_some]
      · rw [if_neg hxM]
        push_neg at hxM
        have hfx : f x = foldMax f t (f x) := le_antisymm hfold hxM
        rw [List.find?_cons_of_pos _ (by simpa using hxM)]
        simp only [Option.map_some', Option.getD_some]
        rw [← hfx]
    · rw [if_neg hx, ih b0 s0]
      push_neg at hx
      have hmx : max s0 (f x) = s0 := max_eq_left hx
      rw [hmx]
      by_cases hs : s0 < foldMax f t s0
      · rw [if_pos hs, if_pos hs]
        have hxne : ¬ foldMax f t s0 ≤ f x := not_le.2 (lt_of_le_of_lt hx hs)
        rw [List.find?_cons_of_neg _ (by simpa using hxne)]
      · rw [if_neg hs, if_neg hs]

/-- The second component of the selection fold dominates the seed. -/
theorem pickFold_snd_ge_init {α β : Type} (f : α → ℚ) (g : α → β) :
    ∀ (l : List α) (b0 : β) (s0 : ℚ),
      s0 ≤ (l.foldl (fun st x => if st.2 < f x then (g x, f x) else st) (b0, s0)).2 := by
  intro l b0 s0
  rw [pickFold f g l b0 s0]
  by_cases hs : s0 < foldMax f l s0
  · rw [if_pos hs]; exact hs.le
  · rw [if_neg hs]

/-- The second component of the selection fold dominates every element's score. -/
theorem pickFold_snd_ge_mem {α β : Type} (f : α → ℚ) (g : α → β) :
    ∀ (l : List α) (b0 : β) (s0 : ℚ) (y : α), y ∈ l →
      f y ≤ (l.foldl (fun st x => if st.2 < f x then (g x, f x) else st) (b0, s0)).2 := by
  intro l b0 s0 y hy
  rw [pickFold f g l b0 s0]
  by_cases hs : s0 < foldMax f l s0
  · rw [if_pos hs]; exact le_foldMax_of_mem f l s0 y hy
  · rw [if_neg hs]
    have := le_foldMax_of_mem f l s0 y hy
    exact this.trans (not_lt.1 hs)

/-! ### `SequenceMatcher.ratio` on identical strings is `1.0`

Needed for the corrected form of the exact-title matching property: if the
query normalizes to the candidate itself, the full-string similarity and
every per-token best similarity are `1`. -/

theorem rowOK_step (a : List Char) (i : Nat) (row : Nat → Nat)
    (hi : i < a.length) (h : rowOK i row) :
    rowOK (i + 1) (flmNextRow (a.getD i '\x00') a 0 a.length row) := by
  constructor
  · intro j
    unfold flmNextRow
    by_cases hc : 0 ≤ j ∧ j < a.length ∧ a.getD j '\x00' = a.getD i '\x00'
    · rw [if_pos hc]
      by_cases hj : j = 0
      · subst hj
        rw [if_pos rfl]
        exact ⟨Nat.succ_le_succ (Nat.zero_le i), le_refl 1⟩
      · rw [if_neg hj]
        obtain ⟨h1, h2⟩ := h.1 (j - 1)
        refine ⟨Nat.succ_le_succ h1, ?_⟩
        have : j - 1 + 1 = j := Nat.succ_pred_eq_of_pos (Nat.pos_of_ne_zero hj)
        calc row (j - 1) + 1 ≤ (j - 1 + 1) + 1 := Nat.succ_le_succ h2
        _ = j + 1 := by rw [this]
    · rw [if_neg hc]
      exact ⟨Nat.zero_le _, Nat.zero_le _⟩
  · intro j hj
    have hji : j = i := by omega
    subst hji
    unfold flmNextRow
    rw [if_pos ⟨Nat.zero_le j, hi, rfl⟩]
    by_cases hj0 : j = 0
    · subst hj0; rw [if_pos rfl]
    · rw [if_neg hj0]
      have hd : row (j - 1) = j := by
        have := h.2 (j - 1) (by omega)
        omega
      omega

theorem bestRow_no_update (i' : Nat) (row : Nat → Nat) :
    ∀ (l : List Nat) (bst : Nat × Nat × Nat), (∀ j ∈ l, row j ≤ bst.2.2) →
      l.foldl
        (fun b j => if b.2.2 < row j then (i' + 1 - row j, j + 1 - row j, row j) else b)
        bst = bst := by
  intro l
  induction l with
  | nil => intro bst _; rfl
  | cons x t ih =>
    intro bst h
    rw [List.foldl_cons, if_neg (not_lt.2 (h x (List.mem_cons_self x t)))]
    exact ih bst (fun j hj => h j (List.mem_cons_of_mem x hj))

theorem bestRow_step (i n : Nat) (row : Nat → Nat) (hi : i < n)
    (hb : ∀ j, row j ≤ i + 1 ∧ row j ≤ j + 1) (hd : row i = i + 1) :
    flmBestRow i 0 n row (0, 0, i) = (0, 0, i + 1) := by
  unfold flmBestRow
  have hsplit : List.range' 0 n = List.range' 0 i ++ i :: List.range' (i + 1) (n - i - 1) := by
    have h1 : List.range' 0 i ++ List.range' (0 + i) (n - i) = List.range' 0 ((n - i) + i) :=
      List.range'_append_1 0 i (n - i)
    have h2 : n - i = (n - i - 1) + 1 := by omega
    rw [h2, List.range'_succ] at h1
    simp only [Nat.zero_add] at h1
    rw [show (n - i - 1) + 1 + i = n by omega] at h1
    exact h1.symm
  rw [Nat.sub_zero, hsplit, List.foldl_append, List.foldl_cons]
  rw [bestRow_no_update i row (List.range' 0 i) (0, 0, i) ?side1]
  case side1 =>
    intro j hj
    obtain ⟨k, hk, rfl⟩ := List.mem_range'.1 hj
    have : 0 + 1 * k + 1 ≤ i := by omega
    exact le_trans (hb _).2 this
  rw [if_pos (show ((0, 0, i) : Nat × Nat × Nat).2.2 < row i by rw [hd]; exact Nat.lt_succ_self i)]
  rw [hd, Nat.sub_self]
  exact bestRow_no_update i row _ _ (fun j _ => (hb j).1)

theorem flmFold_self (a : List Char) :
    ∀ k, k ≤ a.length →
      ∃ row,
        (List.range' 0 k).foldl
          (fun st i =>
            let r := flmNextRow (a.getD i '\x00') a 0 a.length st.1
            (r, flmBestRow i 0 a.length r st.2))
          (fun _ => 0, (0, 0, 0))
        = (row, (0, 0, k)) ∧ rowOK k row := by
  intro k
  induction k with
  | zero =>
    intro _
    refine ⟨fun _ => 0, rfl, ⟨fun j => ⟨le_refl 0, Nat.zero_le _⟩, fun j hj => by omega⟩⟩
  | succ k ih =>
    intro hk
    obtain ⟨row, hrow, hOK⟩ := ih (Nat.le_of_succ_le hk)
    have hkn : k < a.length := hk
    have hsplit : List.range' 0 (k + 1) = List.range' 0 k ++ [k] := by
      have := List.range'_1_concat 0 k
      simpa using this
    rw [hsplit, List.foldl_append, hrow]
    have hOK' := rowOK_step a k row hkn hOK
    refine ⟨flmNextRow (a.getD k '\x00') a 0 a.length row, ?_, hOK'⟩
    simp only [List.foldl_cons, List.foldl_nil]
    congr 1
    exact bestRow_step k a.length _ hkn hOK'.1 (hOK'.2 k rfl)

theorem findLongestMatch_self (a : List Char) :
    findLongestMatch a a 0 a.length 0 a.length = (0, 0, a.length) := by
  obtain ⟨row, hrow, _⟩ := flmFold_self a a.length le_rfl
  unfold findLongestMatch
  rw [Nat.sub_zero, hrow]

theorem matchTotal_empty_left (a b : List Char) (fuel x u v : Nat) (hf : 0 < fuel) :
    matchTotal fuel a b x x u v = 0 := by
  cases fuel with
  | zero => cases hf
  | succ f =>
    show matchTotal (f + 1) a b x x u v = 0
    unfold matchTotal findLongestMatch
    simp [Nat.sub_self]

theorem matchTotal_self (a : List Char) (h : a ≠ []) :
    matchTotal (a.length + 1) a a 0 a.length 0 a.length = a.length := by
  have hn : 0 < a.length := List.length_pos.2 h
  obtain ⟨m, hm⟩ : ∃ m, a.length = m + 1 := ⟨a.length - 1, by omega⟩
  have hflm : findLongestMatch a a 0 (m + 1) 0 (m + 1) = (0, 0, m + 1) := by
    rw [← hm]; exact findLongestMatch_self a
  rw [hm]
  show matchTotal (m + 1 + 1) a a 0 (m + 1) 0 (m + 1) = m + 1
  unfold matchTotal
  rw [hflm]
  rw [if_neg (show ¬ (m + 1 = 0) by omega)]
  simp only [Nat.zero_add]
  rw [matchTotal_empty_left a a (m + 1) 0 0 0 (by omega),
    matchTotal_empty_left a a (m + 1) (m + 1) (m + 1) (m + 1) (by omega)]
  omega

theorem similar_self (x : String) : similar x x = 1 := by
  unfold similar
  by_cases h : x.data = []
  · rw [if_pos (by simp [h])]
  · have hn : 0 < x.data.length := List.length_pos.2 h
    rw [if_neg (by omega)]
    rw [matchTotal_self x.data h]
    have hL : (0 : ℚ) < (x.data.length : ℚ) := by exact_mod_cast hn
    have h2 : (2 : ℚ) * (x.data.length : ℚ) = (x.data.length : ℚ) + (x.data.length : ℚ) := by
      ring
    rw [h2]
    exact div_self (by linarith)

/-! ### Helper lemmas for the matcher theorems -/

theorem map_some_getD {α : Type} (o : Option α) : (o.map some).getD none = o := by
  cases o <;> rfl

/-- The selection fold of `best_manual_match_with_score` with its `let`
binding is the plain strict-improvement fold (zeta reduction). -/
theorem bmm_fold_eq (qn : String) (qToks : List String) (manuals : List String) :
    manuals.foldl
      (fun st m =>
        let s := candScore qn qToks m
        if st.2 < s then (some m, s) else st)
      ((none : Option String), (0 : ℚ))
    = manuals.foldl
      (fun st m =>
        if st.2 < candScore qn qToks m then (some m, candScore qn qToks m) else st)
      ((none : Option String), (0 : ℚ)) := rfl

theorem length_le_sum_of_one_le :
    ∀ (l : List ℚ), (∀ v ∈ l, 1 ≤ v) → (l.length : ℚ) ≤ l.sum := by
  intro l
  induction l with
  | nil => intro _; simp
  | cons x t ih =>
    intro h
    have hx : 1 ≤ x := h x (List.mem_cons_self x t)
    have ht := ih (fun v hv => h v (List.mem_cons_of_mem x hv))
    simp only [List.length_cons, List.sum_cons]
    push_cast
    linarith

theorem bonus_fold_ge_init (p : String → Prop) [DecidablePred p] :
    ∀ (l : List String) (acc : ℚ),
      acc ≤ l.foldl (fun acc qt => if p qt then acc + 2 / 25 else acc) acc := by
  intro l
  induction l with
  | nil => intro acc; exact le_refl acc
  | cons x t ih =>
    intro acc
    rw [List.foldl_cons]
    by_cases hx : p x
    · rw [if_pos hx]
      calc acc ≤ acc + 2 / 25 := by linarith
      _ ≤ _ := ih (acc + 2 / 25)
    · rw [if_neg hx]
      exact ih acc

/-! ### Lemmas for the display-title query

A registry identifier is its display title plus a `.pdf` suffix, so its
normalization is the normalized display title followed by the extra token
`"pdf"`.  The lemmas below compute what the matcher sees for the title
query: the full-string similarity is exactly `2L/(2L+4)` (`L` the title's
normalized length), and the candidate token list is the title's tokens
plus `"pdf"`. -/

/-- Splitting into runs distributes over a separator character. -/
theorem runsAux_sep (p : Char → Bool) (c : Char) (hc : p c = false) (l2 : List Char) :
    ∀ (l1 : List Char) (acc : List Char),
      runsAux p (l1 ++ c :: l2) acc = runsAux p l1 acc ++ runsAux p l2 [] := by
  intro l1
  induction l1 with
  | nil =>
    intro acc
    show runsAux p (c :: l2) acc = runsAux p [] acc ++ runsAux p l2 []
    by_cases ha : acc.isEmpty = true
    · simp [runsAux, hc, ha]
    · simp [runsAux, hc, ha]
  | cons d t ih =>
    intro acc
    rw [List.cons_append]
    by_cases hd : p d = true
    · simp only [runsAux, hd, if_true]
      exact ih (d :: acc)
    · by_cases ha : acc.isEmpty = true
      · simp only [runsAux, hd, ha, Bool.false_eq_true, if_false, if_true]
        exact ih []
      · simp only [runsAux, hd, ha, Bool.false_eq_true, if_false]
        rw [ih [], List.cons_append]

theorem splitWs_append_pdf (s : String) :
    splitWs (s ++ " pdf") = splitWs s ++ ["pdf"] := by
  unfold splitWs runs
  rw [String.data_append]
  rw [show (" pdf").data = ' ' :: ('p' :: 'd' :: 'f' :: []) from rfl]
  rw [runsAux_sep _ ' ' (by decide) _ s.data []]
  rw [List.map_append]
  rfl

/-- Every run is at most as long as the input (plus the pending prefix). -/
theorem runsAux_mem_length (p : Char → Bool) :
    ∀ (l : List Char) (acc r : List Char), r ∈ runsAux p l acc →
      r.length ≤ l.length + acc.length := by
  intro l
  induction l with
  | nil =>
    intro acc r hr
    unfold runsAux at hr
    by_cases ha : acc.isEmpty = true
    · rw [if_pos ha] at hr
      cases hr
    · rw [if_neg ha] at hr
      rcases List.mem_singleton.1 hr with rfl
      simp
  | cons d t ih =>
    intro acc r hr
    unfold runsAux at hr
    by_cases hd : p d = true
    · rw [if_pos hd] at hr
      have := ih (d :: acc) r hr
      simp only [List.length_cons] at this ⊢
      omega
    · rw [if_neg hd] at hr
      by_cases ha : acc.isEmpty = true
      · rw [if_pos ha] at hr
        have := ih [] r hr
        simp only [List.length_nil, List.length_cons] at this ⊢
        omega
      · rw [if_neg ha] at hr
        rcases List.mem_cons.1 hr with rfl | hr'
        · simp only [List.length_reverse, List.length_cons]
          omega
        · have := ih [] r hr'
          simp only [List.length_nil, List.length_cons] at this ⊢
          omega

/-- A whitespace-split token is no longer than the string it came from. -/
theorem splitWs_mem_length (s t : String) (ht : t ∈ splitWs s) :
    t.length ≤ s.length := by
  unfold splitWs runs at ht
  obtain ⟨cs, hcs, rfl⟩ := List.mem_map.1 ht
  have := runsAux_mem_length _ s.data [] cs hcs
  simpa using this

/-- `rowOK_step` generalized to a second sequence agreeing with `a` on the
scanned index (used with `b = a ++ suffix`). -/
theorem rowOK_step_pre (a b : List Char) (i : Nat) (row : Nat → Nat)
    (hib : i < b.length) (hab : b.getD i '\x00' = a.getD i '\x00')
    (h : rowOK i row) :
    rowOK (i + 1) (flmNextRow (a.getD i '\x00') b 0 b.length row) := by
  constructor
  · intro j
    unfold flmNextRow
    by_cases hc : 0 ≤ j ∧ j < b.length ∧ b.getD j '\x00' = a.getD i '\x00'
    · rw [if_pos hc]
      by_cases hj : j = 0
      · subst hj
        rw [if_pos rfl]
        exact ⟨Nat.succ_le_succ (Nat.zero_le i), le_refl 1⟩
      · rw [if_neg hj]
        obtain ⟨h1, h2⟩ := h.1 (j - 1)
        refine ⟨Nat.succ_le_succ h1, ?_⟩
        have hjj : j - 1 + 1 = j := Nat.succ_pred_eq_of_pos (Nat.pos_of_ne_zero hj)
        calc row (j - 1) + 1 ≤ (j - 1 + 1) + 1 := Nat.succ_le_succ h2
        _ = j + 1 := by rw [hjj]
    · rw [if_neg hc]
      exact ⟨Nat.zero_le _, Nat.zero_le _⟩
  · intro j hj
    have hji : j = i := by omega
    subst hji
    unfold flmNextRow
    rw [if_pos ⟨Nat.zero_le j, hib, hab⟩]
    by_cases hj0 : j = 0
    · subst hj0; rw [if_pos rfl]
    · rw [if_neg hj0]
      have hd : row (j - 1) = j := by
        have := h.2 (j - 1) (by omega)
        omega
      omega

theorem flmFold_pre (a b : List Char) (hlen : a.length ≤ b.length)
    (hab : ∀ j, j < a.length → b.getD j '\x00' = a.getD j '\x00') :
    ∀ k, k ≤ a.length →
      ∃ row,
        (List.range' 0 k).foldl
          (fun st i =>
            let r := flmNextRow (a.getD i '\x00') b 0 b.length st.1
            (r, flmBestRow i 0 b.length r st.2))
          (fun _ => 0, (0, 0, 0))
        = (row, (0, 0, k)) ∧ rowOK k row := by
  intro k
  induction k with
  | zero =>
    intro _
    refine ⟨fun _ => 0, rfl, ⟨fun j => ⟨le_refl 0, Nat.zero_le _⟩, fun j hj => by omega⟩⟩
  | succ k ih =>
    intro hk
    obtain ⟨row, hrow, hOK⟩ := ih (Nat.le_of_succ_le hk)
    have hka : k < a.length := hk
    have hkb : k < b.length := lt_of_lt_of_le hka hlen
    have hsplit : List.range' 0 (k + 1) = List.range' 0 k ++ [k] := by
      have := List.range'_1_concat 0 k
      simpa using this
    rw [hsplit, List.foldl_append, hrow]
    have hOK' := rowOK_step_pre a b k row hkb (hab k hka) hOK
    refine ⟨flmNextRow (a.getD k '\x00') b 0 b.length row, ?_, hOK'⟩
    simp only [List.foldl_cons, List.foldl_nil]
    congr 1
    exact bestRow_step k b.length _ hkb hOK'.1 (hOK'.2 k rfl)

theorem findLongestMatch_pre (a b : List Char) (hlen : a.length ≤ b.length)
    (hab : ∀ j, j < a.length → b.getD j '\x00' = a.getD j '\x00') :
    findLongestMatch a b 0 a.length 0 b.length = (0, 0, a.length) := by
  obtain ⟨row, hrow, _⟩ := flmFold_pre a b hlen hab a.length le_rfl
  unfold findLongestMatch
  rw [Nat.sub_zero, hrow]

theorem matchTotal_pre (a b : List Char) (ha : a ≠ []) (hlen : a.length ≤ b.length)
    (hab : ∀ j, j < a.length → b.getD j '\x00' = a.getD j '\x00') :
    matchTotal (a.length + 1) a b 0 a.length 0 b.length = a.length := by
  have hn : 0 < a.length := List.length_pos.2 ha
  obtain ⟨m, hm⟩ : ∃ m, a.length = m + 1 := ⟨a.length - 1, by omega⟩
  have hflm : findLongestMatch a b 0 (m + 1) 0 b.length = (0, 0, m + 1) := by
    rw [← hm]; exact findLongestMatch_pre a b hlen hab
  rw [hm]
  show matchTotal (m + 1 + 1) a b 0 (m + 1) 0 b.length = m + 1
  unfold matchTotal
  rw [hflm]
  rw [if_neg (show ¬ (m + 1 = 0) by omega)]
  simp only [Nat.zero_add]
  rw [matchTotal_empty_left a b (m + 1) 0 0 0 (by omega),
    matchTotal_empty_left a b (m + 1) (m + 1) (m + 1) b.length (by omega)]
  omega

/-- The full-string similarity of a string against itself plus the `" pdf"`
suffix is exactly `2L / (2L + 4)`. -/
theorem similar_append_pdf (x : String) (hx : x.data ≠ []) :
    similar x (x ++ " pdf") = 2 * (x.data.length : ℚ) / (2 * x.data.length + 4) := by
  have hdata : (x ++ " pdf").data = x.data ++ (" pdf").data := String.data_append x " pdf"
  have hlen4 : (x ++ " pdf").data.length = x.data.length + 4 := by
    rw [hdata, List.length_append]; rfl
  have hmt : matchTotal (x.data.length + 1) x.data (x ++ " pdf").data
      0 x.data.length 0 (x ++ " pdf").data.length = x.data.length := by
    apply matchTotal_pre x.data (x ++ " pdf").data hx
    · rw [hlen4]; omega
    · intro j hj
      rw [hdata, List.getD_append _ _ _ _ hj]
  unfold similar
  rw [if_neg (show ¬ (x.data.length + (x ++ " pdf").data.length = 0) by
    rw [hlen4]; omega)]
  rw [hmt, hlen4]
  push_cast
  ring_nf

/-- A manual scores at least `23/30` against its own normalized display
title as the query, provided that title has a token of length ≥ 4 (so the
query-token filter does not fall back, and every query token matches
itself among the candidate's tokens). -/
theorem candScore_title (m : String)
    (hpdf : normalize m = normalize (title_from_filename m) ++ " pdf")
    (ht : ∃ t ∈ splitWs (normalize (title_from_filename m)), 4 ≤ t.length) :
    (23 : ℚ) / 30 ≤
      candScore (normalize (title_from_filename m))
        (queryToks (normalize (title_from_filename m))) m := by
  obtain ⟨t, htm, ht4⟩ := ht
  have hq : queryToks (normalize (title_from_filename m))
      = (splitWs (normalize (title_from_filename m))).filter (fun t => 4 ≤ t.length) := by
    unfold queryToks
    rw [if_neg]
    simp only [List.isEmpty_eq_true]
    intro hcon
    have : t ∈ (splitWs (normalize (title_from_filename m))).filter
        (fun t => 4 ≤ t.length) :=
      List.mem_filter.2 ⟨htm, by simpa using ht4⟩
    rw [hcon] at this
    cases this
  have hqne : queryToks (normalize (title_from_filename m)) ≠ [] := by
    rw [hq]
    intro hcon
    have : t ∈ (splitWs (normalize (title_from_filename m))).filter
        (fun t => 4 ≤ t.length) :=
      List.mem_filter.2 ⟨htm, by simpa using ht4⟩
    rw [hcon] at this
    cases this
  have hqmem : ∀ qt ∈ queryToks (normalize (title_from_filename m)),
      qt ∈ splitWs (normalize (title_from_filename m)) ∧ 4 ≤ qt.length := by
    intro qt hqt
    rw [hq] at hqt
    have := List.mem_filter.1 hqt
    exact ⟨this.1, by simpa using this.2⟩
  have hL4 : 4 ≤ (normalize (title_from_filename m)).length :=
    le_trans ht4 (splitWs_mem_length _ t htm)
  have hdne : (normalize (title_from_filename m)).data ≠ [] := by
    intro hcon
    have hz : (normalize (title_from_filename m)).length = 0 := by
      show (normalize (title_from_filename m)).data.length = 0
      rw [hcon]; rfl
    omega
  unfold candScore
  simp only []
  set qn := normalize (title_from_filename m) with hqn
  rw [hpdf]
  have hfull : similar qn (qn ++ " pdf")
      = 2 * (qn.data.length : ℚ) / (2 * qn.data.length + 4) :=
    similar_append_pdf qn hdne
  rw [hfull, splitWs_append_pdf qn]
  have hfilter : (splitWs qn ++ ["pdf"]).filter (fun t => 3 ≤ t.length)
      = (splitWs qn).filter (fun t => 3 ≤ t.length) ++ ["pdf"] := by
    rw [List.filter_append]; rfl
  rw [hfilter]
  rw [if_neg (by simp)]
  set mToks := (splitWs qn).filter (fun t => 3 ≤ t.length) ++ ["pdf"] with hmToks
  set ptb := (queryToks qn).map
    (fun qt => mToks.foldl (fun b mt => max b (similar qt mt)) 0) with hptb
  have hone : ∀ v ∈ ptb, 1 ≤ v := by
    intro v hv
    rw [hptb] at hv
    obtain ⟨qt, hqt, rfl⟩ := List.mem_map.1 hv
    obtain ⟨hqt1, hqt4⟩ := hqmem qt hqt
    have hqtm : qt ∈ mToks := by
      rw [hmToks]
      exact List.mem_append_left _ (List.mem_filter.2 ⟨hqt1, by simp; omega⟩)
    have : similar qt qt ≤ foldMax (similar qt) mToks 0 :=
      le_foldMax_of_mem (similar qt) mToks 0 qt hqtm
    rw [similar_self qt] at this
    exact this
  have hlen1 : 1 ≤ ptb.length := by
    rw [hptb, List.length_map]
    rcases Nat.eq_zero_or_pos (queryToks qn).length with h0 | h1
    · exact absurd (List.length_eq_zero.1 h0) hqne
    · exact h1
  have hmax : ptb.length.max 1 = ptb.length := Nat.max_eq_left hlen1
  rw [hmax]
  have hsum : (ptb.length : ℚ) ≤ ptb.sum := length_le_sum_of_one_le ptb hone
  have hlenQ : (0 : ℚ) < (ptb.length : ℚ) := by exact_mod_cast hlen1
  have havg : 1 ≤ ptb.sum / (ptb.length : ℚ) := (one_le_div hlenQ).2 hsum
  have hbonus : (0 : ℚ) ≤
      min ((queryToks qn).foldl
        (fun acc qt => if substrIn qt (qn ++ " pdf") ∧ 6 ≤ qt.length then acc + 2 / 25 else acc)
        0) (6 / 25) := by
    refine le_min ?_ (by norm_num)
    exact bonus_fold_ge_init _ (queryToks qn) 0
  set bonus := min ((queryToks qn).foldl
      (fun acc qt => if substrIn qt (qn ++ " pdf") ∧ 6 ≤ qt.length then acc + 2 / 25 else acc)
      0) (6 / 25)
  have hL4' : (4 : ℚ) ≤ (qn.data.length : ℚ) := by
    have : 4 ≤ qn.data.length := hL4
    exact_mod_cast this
  have hfrac : (2 : ℚ) / 3 ≤ 2 * (qn.data.length : ℚ) / (2 * qn.data.length + 4) := by
    rw [div_le_div_iff₀ (by norm_num) (by positivity)]
    linarith
  have h1 : 11 / 20 * ((2 : ℚ) / 3)
      ≤ 11 / 20 * (2 * (qn.data.length : ℚ) / (2 * qn.data.length + 4)) :=
    mul_le_mul_of_nonneg_left hfrac (by norm_num)
  have h2 : (2 : ℚ) / 5 * 1 ≤ 2 / 5 * (ptb.sum / (ptb.length : ℚ)) :=
    mul_le_mul_of_nonneg_left havg (by norm_num)
  linarith

/-! ### Claim theorems: the manual matcher -/

/-- **C4** (counterexample).  `best_manual_match_with_score` does not
implement the claimed scoring rule: for query `"ab"` against candidate
`"ab"` the code returns confidence `0.95` (the candidate-token filter falls
back to all tokens when none has length ≥ 3) while the rule as claimed
yields `0.55`; and for query `"abcdef ghijkl"` the code picks the candidate
with the strictly highest **unclamped** score while per-candidate clamping,
as claimed, would keep the earlier candidate on the clamped tie. -/
theorem c4_matcher_counterexample :
    best_manual_match_with_score "ab" ["ab"] = (some "ab", 19 / 20) ∧
    claimMatch "ab" ["ab"] = (some "ab", 11 / 20) ∧
    best_manual_match_with_score "abcdef ghijkl" ["abcdef ghijkl xyz", "abcdef ghijkl"]
      = (some "abcdef ghijkl", 1) ∧
    claimMatch "abcdef ghijkl" ["abcdef ghijkl xyz", "abcdef ghijkl"]
      = (some "abcdef ghijkl xyz", 1) := by
  refine ⟨?_, ?_, ?_, ?_⟩ <;> with_unfolding_all decide

/-- **C4** (amended).  `best_manual_match_with_score` assigns each candidate
the **unclamped** score `0.55*s_full + 0.40*s_tokens_avg + literal_bonus`
(with fallback to all candidate tokens when none has length ≥ 3), returns
the first candidate attaining the strictly highest score (`none` when no
candidate scores above 0), and clamps only the returned best score to 1. -/
theorem c4_matcher_amended (q : String) (manuals : List String) :
    best_manual_match_with_score q manuals = specMatch q manuals := by
  unfold best_manual_match_with_score specMatch
  by_cases hqn : normalize q = ""
  · rw [if_pos hqn, if_pos hqn]
  · rw [if_neg hqn, if_neg hqn]
    simp only []
    rw [bmm_fold_eq]
    rw [pickFold (candScore (normalize q) (queryToks (normalize q))) some manuals none 0]
    by_cases hM : 0 < foldMax (candScore (normalize q) (queryToks (normalize q))) manuals 0
    · rw [if_pos hM, if_pos hM, map_some_getD]
    · rw [if_neg hM, if_neg hM]
      rw [min_eq_left (by norm_num : (0 : ℚ) ≤ 1)]

/-- **C5** (counterexample).  Querying the matcher with the exact normalized
display title of a registered manual can return confidence below
`AUTO_LOCK_THRESHOLD`: for the corpus file `"ab_cd.pdf"` the display title
is `"ab cd"` and the confidence is `331/700 ≈ 0.47 < 0.72`. -/
theorem c5_exact_title_counterexample :
    title_from_filename "ab_cd.pdf" = "ab cd" ∧
    best_manual_match_with_score (normalize (title_from_filename "ab_cd.pdf")) ["ab_cd.pdf"]
      = (some "ab_cd.pdf", 331 / 700) ∧
    ¬ AUTO_LOCK_THRESHOLD
        ≤ (best_manual_match_with_score (normalize (title_from_filename "ab_cd.pdf"))
            ["ab_cd.pdf"]).2 := by
  refine ⟨?_, ?_, ?_⟩ <;> with_unfolding_all decide

/-- **C5** (amended).  For every manual `m` in the candidate list — a
registry identifier, i.e. a `*.pdf` name whose normalization is the
normalized display title followed by the token `"pdf"` — whose normalized
display title contains a token of length ≥ 4, calling the matcher with the
exact normalized display title of `m` (or any query normalizing to it)
returns a confidence ≥ `AUTO_LOCK_THRESHOLD` (0.72): the score against `m`
is at least `0.55·(2L/(2L+4)) + 0.40 ≥ 23/30`. -/
theorem c5_exact_title_auto_locks (manuals : List String) (m q : String)
    (hm : m ∈ manuals)
    (hq : normalize q = normalize (title_from_filename m))
    (hpdf : normalize m = normalize (title_from_filename m) ++ " pdf")
    (ht : ∃ t ∈ splitWs (normalize (title_from_filename m)), 4 ≤ t.length) :
    AUTO_LOCK_THRESHOLD ≤ (best_manual_match_with_score q manuals).2 := by
  have hscore := candScore_title m hpdf ht
  have hdne : (normalize (title_from_filename m)).data ≠ [] := by
    obtain ⟨t, htm, ht4⟩ := ht
    intro hcon
    have hz : (normalize (title_from_filename m)).length = 0 := by
      show (normalize (title_from_filename m)).data.length = 0
      rw [hcon]; rfl
    have := le_trans ht4 (splitWs_mem_length _ t htm)
    omega
  have hqn : normalize q ≠ "" := by
    rw [hq]
    intro hcon
    apply hdne
    rw [hcon]
  unfold best_manual_match_with_score
  rw [if_neg hqn]
  simp only []
  rw [bmm_fold_eq, hq]
  have hge : candScore (normalize (title_from_filename m))
        (queryToks (normalize (title_from_filename m))) m
      ≤ (manuals.foldl
          (fun st c =>
            if st.2 < candScore (normalize (title_from_filename m))
                (queryToks (normalize (title_from_filename m))) c
            then (some c, candScore (normalize (title_from_filename m))
                (queryToks (normalize (title_from_filename m))) c)
            else st)
          ((none : Option String), (0 : ℚ))).2 :=
    pickFold_snd_ge_mem _ some manuals none 0 m hm
  have h23 : (23 : ℚ) / 30
      ≤ (manuals.foldl
          (fun st c =>
            if st.2 < candScore (normalize (title_from_filename m))
                (queryToks (normalize (title_from_filename m))) c
            then (some c, candScore (normalize (title_from_filename m))
                (queryToks (normalize (title_from_filename m))) c)
            else st)
          ((none : Option String), (0 : ℚ))).2 := le_trans hscore hge
  have hthr : AUTO_LOCK_THRESHOLD ≤ (23 : ℚ) / 30 := by
    unfold AUTO_LOCK_THRESHOLD; norm_num
  exact le_trans hthr (le_min h23 (by norm_num))

/-- **C5** (witness): the display title of `"gmdss.pdf"` is `"gmdss"`
(already normalized, with a length-5 token), and querying it auto-locks;
`"abcd.pdf"` realizes the exact bound `23/30`. -/
theorem c5_exact_title_auto_locks_witness :
    normalize (title_from_filename "gmdss.pdf") = "gmdss" ∧
    AUTO_LOCK_THRESHOLD
      ≤ (best_manual_match_with_score "gmdss" ["gmdss.pdf", "starlink.pdf"]).2 ∧
    best_manual_match_with_score "abcd" ["abcd.pdf"] = (some "abcd.pdf", 23 / 30) :=
  ⟨by with_unfolding_all decide,
    c5_exact_title_auto_locks ["gmdss.pdf", "starlink.pdf"] "gmdss.pdf" "gmdss"
      (by with_unfolding_all decide) (by with_unfolding_all decide)
      (by with_unfolding_all decide)
      ⟨"gmdss", by with_unfolding_all decide⟩,
    by with_unfolding_all decide⟩

/-- **C10**.  `best_manual_match_with_score` is total at its interface: the
returned confidence lies in `[0, 1]`, and an empty normalized query or an
empty candidate list yields `(none, 0)`.  (The Lean embedding is a total
function; the Python body performs no partial operation: the average divides
by `max(len, 1)` and the loop only compares and adds.) -/
theorem c10_matcher_total (q : String) (manuals : List String) :
    0 ≤ (best_manual_match_with_score q manuals).2 ∧
    (best_manual_match_with_score q manuals).2 ≤ 1 ∧
    (normalize q = "" → best_manual_match_with_score q manuals = (none, 0)) ∧
    (manuals = [] → best_manual_match_with_score q manuals = (none, 0)) := by
  unfold best_manual_match_with_score
  by_cases hqn : normalize q = ""
  · rw [if_pos hqn]
    exact ⟨le_refl 0, by norm_num, fun _ => rfl, fun _ => rfl⟩
  · rw [if_neg hqn]
    simp only []
    rw [bmm_fold_eq]
    refine ⟨?_, min_le_right _ _, fun h => absurd h hqn, ?_⟩
    · exact le_min (pickFold_snd_ge_init _ some manuals none 0) (by norm_num)
    · intro h
      subst h
      show ((none : Option String), min (0 : ℚ) 1) = (none, 0)
      rw [min_eq_left (by norm_num : (0 : ℚ) ≤ 1)]

/-! ### Helper lemmas for the chat-loop theorems -/

theorem cacheFind_map_set (k : Option String) (e : Engine) :
    ∀ (c : List (Option String × Engine)), c.any (fun kv => kv.1 == k) = true →
      cacheFind (c.map (fun kv => if kv.1 == k then (k, e) else kv)) k = some e := by
  intro c
  induction c with
  | nil => intro h; cases h
  | cons kv t ih =>
    intro h
    by_cases hkv : (kv.1 == k) = true
    · unfold cacheFind
      rw [List.map_cons, if_pos hkv]
      rw [List.find?_cons_of_pos _ (by simp)]
      rfl
    · unfold cacheFind
      rw [List.map_cons, if_neg hkv]
      rw [List.find?_cons_of_neg _ (by simpa using hkv)]
      have ht : t.any (fun kv => kv.1 == k) = true := by
        rcases List.any_eq_true.1 h with ⟨x, hx, hpx⟩
        rcases List.mem_cons.1 hx with rfl | hx'
        · exact absurd hpx hkv
        · exact List.any_eq_true.2 ⟨x, hx', hpx⟩
      exact ih ht

theorem cacheFind_set (c : List (Option String × Engine)) (k : Option String)
    (e : Engine) : cacheFind (cacheSet c k e) k = some e := by
  unfold cacheSet
  by_cases hk : c.any (fun kv => kv.1 == k) = true
  · rw [if_pos hk]
    exact cacheFind_map_set k e c hk
  · rw [if_neg hk]
    unfold cacheFind
    rw [List.find?_append]
    have h1 : c.find? (fun kv => kv.1 == k) = none := by
      rw [List.find?_eq_none]
      intro x hx hpx
      exact hk (List.any_eq_true.2 ⟨x, hx, hpx⟩)
    rw [h1]
    simp

/-- A truthy forced scope short-circuits the per-turn scope decision: the
matcher is not consulted. -/
theorem decideManual_forced (m : String) (q : String) (manuals : List String)
    (hm : m ≠ "") : decideManual (some m) q manuals = some m := by
  unfold decideManual
  rw [if_pos (by simpa [isTruthy] using hm)]

/-- A non-command input reaches the RAG branch of the loop body. -/
theorem chatTurn_of_not_command (st : ChatState) (raw : String) (resp : ChatResp)
    (hcmd : isCommand raw = false) :
    chatTurn st raw resp
      = (let q := strip raw
         let active := decideManual st.sticky q st.manuals
         let cache1 :=
           if st.cache.any (fun kv => kv.1 == active) then st.cache
           else st.cache ++ [(active, buildEngine active)]
         let e := (cacheFind cache1 active).getD (buildEngine active)
         let cache2 :=
           cacheSet cache1 active { e with history := e.history ++ [(q, resp.text)] }
         ({ st with cache := cache2 },
           ("Assistant: " ++ resp.text) ::
             (if containsCI NOT_FOUND resp.text
              then ["Assistant: Try asking something that exists in the manual."]
              else sourceLines resp.fragments))) := by
  have c1 : ¬ ((strip raw).toLower = "exit" ∨ (strip raw).toLower = "quit") := by
    rintro (h | h) <;> simp [isCommand, h] at hcmd
  have c2 : ¬ ((strip raw).toLower = "hi" ∨ (strip raw).toLower = "hello" ∨
      (strip raw).toLower = "hey" ∨ (strip raw).toLower = "who are you" ∨
      (strip raw).toLower = "help") := by
    rintro (h | h | h | h | h) <;> simp [isCommand, h] at hcmd
  have c3 : ¬ ((strip raw).toLower.startsWith "list manuals" = true) := by
    intro h; simp [isCommand, h] at hcmd
  have c4 : ¬ ((strip raw).toLower = "unlock" ∨ (strip raw).toLower = "clear lock") := by
    rintro (h | h) <;> simp [isCommand, h] at hcmd
  have c5 : ¬ ((strip raw).toLower.startsWith "use " = true ∨
      (strip raw).toLower.startsWith "lock " = true) := by
    rintro (h | h) <;> simp [isCommand, h] at hcmd
  unfold chatTurn
  rw [if_neg c1, if_neg c2, if_neg c3, if_neg c4, if_neg c5]

/-! ### Claim theorems: the post-answer guard (C1) -/

/-- **C1** (counterexample).  With the scope locked to `"gmdss.pdf"`, a turn
whose response cites a fragment of `"starlink.pdf"` is displayed verbatim,
answer and foreign source included; no line equals the claimed refusal
`"Not found in the requested manual."` (that string exists nowhere in the
code). -/
theorem c1_no_guard_counterexample :
    (chatTurn
        { manuals := ["gmdss.pdf", "starlink.pdf"], sticky := some "gmdss.pdf",
          cache := [(none, buildEngine none)] }
        "how do i reset the terminal"
        { text := "Press the reset button.",
          fragments := [("starlink.pdf", some "3")] }).2
      = ["Assistant: Press the reset button.", "Sources:",
         "- starlink.pdf (pages: 3)",
         "  - http://localhost:8000/data/manuals/starlink.pdf#page=3"] ∧
    "Not found in the requested manual." ∉
      (chatTurn
        { manuals := ["gmdss.pdf", "starlink.pdf"], sticky := some "gmdss.pdf",
          cache := [(none, buildEngine none)] }
        "how do i reset the terminal"
        { text := "Press the reset button.",
          fragments := [("starlink.pdf", some "3")] }).2 ∧
    "Assistant: Not found in the requested manual." ∉
      (chatTurn
        { manuals := ["gmdss.pdf", "starlink.pdf"], sticky := some "gmdss.pdf",
          cache := [(none, buildEngine none)] }
        "how do i reset the terminal"
        { text := "Press the reset button.",
          fragments := [("starlink.pdf", some "3")] }).2 := by
  refine ⟨?_, ?_, ?_⟩ <;> with_unfolding_all decide

/-- **C1** (amended).  On a locked turn the displayed output is the
generated answer followed by its own sources, computed from the response's
fragments alone — fragment manual identifiers are never compared with the
active scope and nothing is suppressed or replaced.  Scope enforcement
exists only at retrieval time: the engine serving a scope is built with
that scope as its retriever filter.  The lock itself survives the turn. -/
theorem c1_no_post_answer_guard (st : ChatState) (raw : String) (resp : ChatResp)
    (m : String) (hm : st.sticky = some m) (hcmd : isCommand raw = false) :
    (chatTurn st raw resp).2
      = ("Assistant: " ++ resp.text) ::
          (if containsCI NOT_FOUND resp.text
           then ["Assistant: Try asking something that exists in the manual."]
           else sourceLines resp.fragments) ∧
    (chatTurn st raw resp).1.sticky = some m ∧
    (buildEngine (some m)).manualId = some m := by
  rw [chatTurn_of_not_command st raw resp hcmd]
  exact ⟨rfl, hm, rfl⟩

/-- **C1** (witness). -/
theorem c1_no_post_answer_guard_witness :
    (chatTurn
        { manuals := ["gmdss.pdf", "starlink.pdf"], sticky := some "gmdss.pdf",
          cache := [(none, buildEngine none)] }
        "how do i reset the terminal"
        { text := "Press the reset button.",
          fragments := [("starlink.pdf", some "3")] }).2
      = ("Assistant: " ++ "Press the reset button.") ::
          (if containsCI NOT_FOUND "Press the reset button."
           then ["Assistant: Try asking something that exists in the manual."]
           else sourceLines [("starlink.pdf", some "3")]) ∧
    (chatTurn
        { manuals := ["gmdss.pdf", "starlink.pdf"], sticky := some "gmdss.pdf",
          cache := [(none, buildEngine none)] }
        "how do i reset the terminal"
        { text := "Press the reset button.",
          fragments := [("starlink.pdf", some "3")] }).1.sticky = some "gmdss.pdf" ∧
    (buildEngine (some "gmdss.pdf")).manualId = some "gmdss.pdf" :=
  c1_no_post_answer_guard
    { manuals := ["gmdss.pdf", "starlink.pdf"], sticky := some "gmdss.pdf",
      cache := [(none, buildEngine none)] }
    "how do i reset the terminal"
    { text := "Press the reset button.", fragments := [("starlink.pdf", some "3")] }
    "gmdss.pdf" rfl (by with_unfolding_all decide)

/-! ### Claim theorems: forced scope is sticky (C2) -/

/-- **C2**.  While `sticky_manual = m` (set by `use`/`lock`), any non-command
question leaves the scope at `m` and is routed to the session keyed by `m`
— the matcher's opinion on the question is never consulted, so even a
question that would match another manual at any confidence cannot change
the scope. -/
theorem c2_forced_scope_sticky (st : ChatState) (raw : String) (resp : ChatResp)
    (m : String) (hm : st.sticky = some m) (hm' : m ≠ "")
    (hcmd : isCommand raw = false) :
    decideManual st.sticky (strip raw) st.manuals = some m ∧
    (chatTurn st raw resp).1.sticky = some m ∧
    (∃ e : Engine, cacheFind (chatTurn st raw resp).1.cache (some m) = some e ∧
      ∃ h : List (String × String), e.history = h ++ [(strip raw, resp.text)]) := by
  have hdec : decideManual st.sticky (strip raw) st.manuals = some m := by
    rw [hm]; exact decideManual_forced m (strip raw) st.manuals hm'
  refine ⟨hdec, ?_, ?_⟩
  · rw [chatTurn_of_not_command st raw resp hcmd]; exact hm
  · rw [chatTurn_of_not_command st raw resp hcmd]
    simp only [hdec]
    refine ⟨_, cacheFind_set _ (some m) _, _, rfl⟩

/-- **C2** (witness): locked to `"gmdss.pdf"`, the question `"starlink"`
fuzzy-matches `"starlink.pdf"` at confidence `0.92 ≥ AUTO_LOCK_THRESHOLD`,
yet the scope decision stays `"gmdss.pdf"`. -/
theorem c2_forced_scope_sticky_witness :
    best_manual_match_with_score "starlink" ["gmdss.pdf", "starlink.pdf"]
      = (some "starlink.pdf", 23 / 25) ∧
    AUTO_LOCK_THRESHOLD ≤ 23 / 25 ∧
    decideManual (some "gmdss.pdf") (strip "starlink") ["gmdss.pdf", "starlink.pdf"]
      = some "gmdss.pdf" :=
  ⟨by with_unfolding_all decide, by with_unfolding_all decide,
    (c2_forced_scope_sticky
      { manuals := ["gmdss.pdf", "starlink.pdf"], sticky := some "gmdss.pdf",
        cache := [(none, buildEngine none)] }
      "starlink" { text := "", fragments := [] } "gmdss.pdf" rfl
      (by with_unfolding_all decide) (by with_unfolding_all decide)).1⟩

/-! ### Claim theorems: unlock and session invalidation (C3) -/

/-- **C3** (counterexample).  `unlock` clears the lock but does **not**
invalidate the engine cache: in a four-turn script (unscoped question,
`use gmdss`, `unlock`, unscoped question) the cache is unchanged by the
unlock, and the session serving the post-unlock question still holds the
pre-unlock history — it does not start empty. -/
theorem c3_unlock_counterexample :
    (chatTurn
      (chatTurn
        (chatTurn
          { manuals := ["gmdss.pdf", "starlink.pdf"], sticky := none,
            cache := [(none, buildEngine none)] }
          "what is the weather today" { text := "A1", fragments := [] }).1
        "use gmdss" { text := "", fragments := [] }).1
      "unlock" { text := "", fragments := [] }).1.cache
    = (chatTurn
        (chatTurn
          { manuals := ["gmdss.pdf", "starlink.pdf"], sticky := none,
            cache := [(none, buildEngine none)] }
          "what is the weather today" { text := "A1", fragments := [] }).1
        "use gmdss" { text := "", fragments := [] }).1.cache ∧
    cacheFind
      (chatTurn
        (chatTurn
          (chatTurn
            (chatTurn
              { manuals := ["gmdss.pdf", "starlink.pdf"], sticky := none,
                cache := [(none, buildEngine none)] }
              "what is the weather today" { text := "A1", fragments := [] }).1
            "use gmdss" { text := "", fragments := [] }).1
          "unlock" { text := "", fragments := [] }).1
        "what else can go wrong" { text := "A4", fragments := [] }).1.cache
      none
    = some { manualId := none,
             history := [("what is the weather today", "A1"),
                         ("what else can go wrong", "A4")] } ∧
    ¬ cacheFind
      (chatTurn
        (chatTurn
          (chatTurn
            (chatTurn
              { manuals := ["gmdss.pdf", "starlink.pdf"], sticky := none,
                cache := [(none, buildEngine none)] }
              "what is the weather today" { text := "A1", fragments := [] }).1
            "use gmdss" { text := "", fragments := [] }).1
          "unlock" { text := "", fragments := [] }).1
        "what else can go wrong" { text := "A4", fragments := [] }).1.cache
      none
    = some { manualId := none,
             history := [("what else can go wrong", "A4")] } := by
  refine ⟨?_, ?_, ?_⟩ <;> with_unfolding_all decide

/-- **C3** (amended).  An `unlock` command from any state sets the scope to
`UNLOCKED` and prints the confirmation, but leaves the engine cache — and
therefore every cached session's conversational history — untouched; the
next question reuses the cached session of its scope together with its
accumulated history. -/
theorem c3_unlock_keeps_sessions (st : ChatState) (resp : ChatResp) :
    (chatTurn st "unlock" resp).1.sticky = none ∧
    (chatTurn st "unlock" resp).1.cache = st.cache ∧
    (chatTurn st "unlock" resp).2 = ["Assistant: Manual lock cleared."] := by
  unfold chatTurn
  rw [if_neg (by with_unfolding_all decide), if_neg (by with_unfolding_all decide),
    if_neg (by with_unfolding_all decide), if_pos (by with_unfolding_all decide)]
  exact ⟨rfl, rfl, rfl⟩

/-! ### Claim theorems: registry tokenization (C8) -/

/-- **C8**.  Every token stored in a registry entry survives the `_tokenize`
filters: it is no stopword, no bare 4-digit number, and no shorter than 3
characters; concretely, the registry built over `"manual_2014.pdf"` has an
empty token set (both `"manual"` and `"2014"` are dropped). -/
theorem c8_registry_token_filter :
    (∀ (files : List String) (name : String) (e : ManualEntry),
        (name, e) ∈ build_manual_registry files → ∀ t ∈ e.tokens,
        t ∉ STOPWORDS ∧ ¬ (t.data.all Char.isDigit = true ∧ t.length = 4)
          ∧ 3 ≤ t.length) ∧
    build_manual_registry ["manual_2014.pdf"]
      = [("manual_2014.pdf",
          { file_name := "manual_2014.pdf", stem := "manual_2014", tokens := [] })] := by
  constructor
  · intro files name e hmem t ht
    obtain ⟨nm, _, heq⟩ := List.mem_map.1 hmem
    injection heq with h1 h2
    subst h2
    have ht' : t ∈ tokenize (stemOf nm) := List.mem_dedup.1 ht
    exact of_decide_eq_true (List.mem_filter.1 ht').2
  · with_unfolding_all decide

/-- **C8** (witness): the file `"gmdss_2014.pdf"` keeps exactly the token
`"gmdss"`, which passes all three filters. -/
theorem c8_registry_token_filter_witness :
    "gmdss" ∉ STOPWORDS ∧
    ¬ ("gmdss".data.all Char.isDigit = true ∧ "gmdss".length = 4) ∧
    3 ≤ "gmdss".length :=
  c8_registry_token_filter.1 ["gmdss_2014.pdf"] "gmdss_2014.pdf"
    { file_name := "gmdss_2014.pdf", stem := "gmdss_2014", tokens := ["gmdss"] }
    (by with_unfolding_all decide) "gmdss" (by with_unfolding_all decide)

/-! ### Claim theorems: simplified selector (C9) -/

/-- **C9** (counterexample).  `select_manual_from_question` does not break
score ties by longest matched token: with two entries both scoring `1.0` on
`"abc abcdef"`, the code returns the first entry (`a.pdf`, matched token
`"abc"`), while the claimed rule would return `b.pdf` (matched token
`"abcdef"`, length 6 > 3). -/
theorem c9_selector_counterexample :
    select_manual_from_question "abc abcdef"
        [("a.pdf", { file_name := "a.pdf", stem := "a", tokens := ["abc"] }),
         ("b.pdf", { file_name := "b.pdf", stem := "b", tokens := ["abcdef"] })]
      = (some "a.pdf", some "abc") ∧
    claimSelect "abc abcdef"
        [("a.pdf", { file_name := "a.pdf", stem := "a", tokens := ["abc"] }),
         ("b.pdf", { file_name := "b.pdf", stem := "b", tokens := ["abcdef"] })]
      = (some "b.pdf", some "abcdef") ∧
    (entryScore (normalize_question "abc abcdef")
        (question_words (normalize_question "abc abcdef")) ["abc"]).1
      = (entryScore (normalize_question "abc abcdef")
        (question_words (normalize_question "abc abcdef")) ["abcdef"]).1 := by
  refine ⟨?_, ?_, ?_⟩ <;> with_unfolding_all decide

/-- **C9** (amended).  The selector scores entries exactly as claimed (1.0
per exact whole-word token hit, 0.9 per length-≥-4 token fuzzy-matching a
length-≥-4 question word at similarity ≥ 0.88), but ties on the highest
cumulative score keep the **first encountered** entry, in registry order;
the matched-token length plays no role. -/
theorem c9_selector_amended (question : String)
    (registry : List (String × ManualEntry)) :
    select_manual_from_question question registry = specSelect question registry := by
  unfold select_manual_from_question specSelect
  simp only []
  rw [show
    registry.foldl
      (fun st entry =>
        let sc := entryScore (normalize_question question)
          (question_words (normalize_question question)) entry.2.tokens
        if st.2 < sc.1 then ((some entry.1, sc.2), sc.1) else st)
      (((none, none) : Option String × Option String), (0 : ℚ))
    = registry.foldl
      (fun st entry =>
        if st.2 < (entryScore (normalize_question question)
            (question_words (normalize_question question)) entry.2.tokens).1
        then ((some entry.1, (entryScore (normalize_question question)
            (question_words (normalize_question question)) entry.2.tokens).2),
          (entryScore (normalize_question question)
            (question_words (normalize_question question)) entry.2.tokens).1)
        else st)
      (((none, none) : Option String × Option String), (0 : ℚ)) from rfl]
  rw [pickFold
    (fun e => (entryScore (normalize_question question)
      (question_words (normalize_question question)) e.2.tokens).1)
    (fun e => ((some e.1 : Option String), (entryScore (normalize_question question)
      (question_words (normalize_question question)) e.2.tokens).2))
    registry (none, none) 0]
  by_cases hM : 0 < foldMax
      (fun e => (entryScore (normalize_question question)
        (question_words (normalize_question question)) e.2.tokens).1) registry 0
  · rw [if_pos hM, if_pos hM, if_neg (not_le.2 hM)]
  · rw [if_neg hM, if_neg hM, if_pos (le_refl (0 : ℚ))]

/-! ### Claim theorems: batch cache building (C7) -/

/-- **C7** (counterexample).  A rate-limit error persisting through all 8
retry attempts for `"aaa.pdf"` aborts the whole batch: `"bbb.pdf"` — whose
query would succeed immediately — gets no cache entry in that run. -/
theorem c7_batch_abort_counterexample :
    build_models_cache
        (fun pdf _ =>
          if pdf = "aaa.pdf" then Except.error "429 Too Many Requests"
          else Except.ok { text := "Starlink System",
                           sources := [("bbb.pdf", some "1")] })
        ["bbb.pdf", "aaa.pdf"] []
      = ([], some "429 Too Many Requests") ∧
    safe_query
        (((fun pdf _ =>
          if pdf = "aaa.pdf" then Except.error "429 Too Many Requests"
          else Except.ok { text := "Starlink System",
                           sources := [("bbb.pdf", some "1")] }) :
            String → Nat → Except String QueryResp) "bbb.pdf") 8
      = Except.ok { text := "Starlink System", sources := [("bbb.pdf", some "1")] } := by
  refine ⟨by with_unfolding_all decide, by with_unfolding_all rfl⟩

/-- **C7** (amended).  When the capped retries for one manual are exhausted
the error propagates out of `build_models_cache` and aborts the run: every
manual after the failing one is left unprocessed, and the returned (and
persisted) cache is exactly the one built before the failure.  The build is
resume-safe rather than per-manual fault-tolerant: already-cached manuals
are skipped, so a rerun continues after the previously completed entries. -/
theorem c7_retry_exhaustion_aborts_batch
    (oracle : String → Nat → Except String QueryResp) (m e : String)
    (ys : List String) :
    (∀ (xs : List String) (c0 c1 : List (String × List ModelInfo)),
        buildCacheGo oracle xs c0 = (c1, none) →
        c1.any (fun kv => kv.1 == m) = false →
        safe_query (oracle m) 8 = Except.error e →
        buildCacheGo oracle (xs ++ m :: ys) c0 = (c1, some e)) ∧
    (∀ (p : String) (c : List (String × List ModelInfo)),
        c.any (fun kv => kv.1 == p) = true →
        buildCacheGo oracle (p :: ys) c = buildCacheGo oracle ys c) := by
  constructor
  · intro xs
    induction xs with
    | nil =>
      intro c0 c1 h1 h2 h3
      simp only [buildCacheGo] at h1
      injection h1 with hc _
      subst hc
      show buildCacheGo oracle ([] ++ m :: ys) c0 = (c0, some e)
      simp only [List.nil_append, buildCacheGo]
      rw [if_neg (by simp [h2]), h3]
    | cons x xs ih =>
      intro c0 c1 h1 h2 h3
      simp only [buildCacheGo] at h1
      show buildCacheGo oracle ((x :: xs) ++ m :: ys) c0 = (c1, some e)
      rw [List.cons_append]
      simp only [buildCacheGo]
      by_cases hx : (c0.any fun kv => kv.1 == x) = true
      · rw [if_pos hx] at h1 ⊢
        exact ih c0 c1 h1 h2 h3
      · rw [if_neg hx] at h1 ⊢
        cases hq : safe_query (oracle x) 8 with
        | error e' =>
          rw [hq] at h1
          have := congrArg Prod.snd h1
          simp at this
        | ok resp =>
          rw [hq] at h1
          exact ih _ c1 h1 h2 h3
  · intro p c hc
    show buildCacheGo oracle (p :: ys) c = buildCacheGo oracle ys c
    simp only [buildCacheGo]
    rw [if_pos hc]

/-- **C7** (witness). -/
theorem c7_retry_exhaustion_aborts_batch_witness :
    buildCacheGo
        (fun pdf _ =>
          if pdf = "aaa.pdf" then Except.error "429 Too Many Requests"
          else Except.ok { text := "Starlink System",
                           sources := [("bbb.pdf", some "1")] })
        ([] ++ "aaa.pdf" :: ["bbb.pdf"]) []
      = ([], some "429 Too Many Requests") :=
  (c7_retry_exhaustion_aborts_batch
      (fun pdf _ =>
        if pdf = "aaa.pdf" then Except.error "429 Too Many Requests"
        else Except.ok { text := "Starlink System",
                         sources := [("bbb.pdf", some "1")] })
      "aaa.pdf" "429 Too Many Requests" ["bbb.pdf"]).1
    [] [] [] rfl rfl (by with_unfolding_all rfl)

/-! ### Claim theorems: compound-query splitter (C6, modelled from spec) -/

/-- **C6**.  The splitter cuts an inventory-flavored question at the first
"and"/"then", keeping the text after the conjunction as remainder only when
its trimmed length is at least 5 (otherwise the whole question is pure
inventory with no remainder); in particular the two sample questions of the
specification split as stated. -/
theorem c6_splitter :
    splitInventory "what models do you have and what is 4wd lock"
      = (true, "what models do you have", "what is 4wd lock") ∧
    splitInventory "list manuals" = (false, "list manuals", "") ∧
    (∀ q : String, inventoryFlavored q = true →
      (splitInventory q).2.2 = "" ∨ 5 ≤ (splitInventory q).2.2.length) ∧
    (∀ q : String, inventoryFlavored q = true → (splitInventory q).2.2 = "" →
      (splitInventory q).2.1 = String.intercalate " " (splitWs (strip q))) := by
  refine ⟨by with_unfolding_all decide, by with_unfolding_all decide, ?_, ?_⟩
  · intro q hq
    rcases hsp : splitAtConj (splitWs (strip q)) with _ | ⟨pre, post⟩
    · left
      simp [splitInventory, hq, hsp]
    · by_cases hlen : 5 ≤ (strip (String.intercalate " " post)).length
      · right
        simp [splitInventory, hq, hsp, hlen]
      · left
        simp [splitInventory, hq, hsp, hlen]
  · intro q hq
    rcases hsp : splitAtConj (splitWs (strip q)) with _ | ⟨pre, post⟩
    · intro _
      simp [splitInventory, hq, hsp]
    · by_cases hlen : 5 ≤ (strip (String.intercalate " " post)).length
      · intro hrem
        exfalso
        have hval : (splitInventory q).2.2 = strip (String.intercalate " " post) := by
          simp [splitInventory, hq, hsp, hlen]
        have h0 : strip (String.intercalate " " post) = "" := by
          rw [← hval]; exact hrem
        rw [h0] at hlen
        exact absurd hlen (by decide)
      · intro _
        simp [splitInventory, hq, hsp, hlen]

/-- **C6** (witness). -/
theorem c6_splitter_witness :
    inventoryFlavored "what models do you have and what is 4wd lock" = true ∧
    ((splitInventory "what models do you have and what is 4wd lock").2.2 = "" ∨
      5 ≤ (splitInventory "what models do you have and what is 4wd lock").2.2.length) :=
  ⟨by with_unfolding_all decide,
    c6_splitter.2.2.1 "what models do you have and what is 4wd lock"
      (by with_unfolding_all decide)⟩

/-- **C10** (witness): concrete edge cases. -/
theorem c10_matcher_total_witness :
    (normalize "!!!" = "" ∧ best_manual_match_with_score "!!!" ["gmdss.pdf"] = (none, 0)) ∧
    best_manual_match_with_score "starlink" [] = (none, 0) :=
  ⟨⟨by with_unfolding_all decide,
      (c10_matcher_total "!!!" ["gmdss.pdf"]).2.2.1 (by with_unfolding_all decide)⟩,
    (c10_matcher_total "starlink" []).2.2.2 rfl⟩

end Vivo
